import Mathlib

/-!
Verification of the halfpipe-analysis statistics pipeline.

This file gives a shallow embedding, in Lean 4, of the data transformations of
the `snowboarding-halfpipe-analysis` scripts, and proves (or refutes) the
specified properties of those transformations.

Modelling conventions, used throughout:

* JavaScript numbers are modelled as `ℚ`.  Every arithmetic operation the
  scripts perform on their (small, decimal) inputs is exact over `ℚ`.
  `NaN` (the result of `parseFloat` on a non-numeric string) is modelled by
  `Option ℚ` being `none`; the scripts only ever test `isNaN` or let `NaN`
  propagate, both of which `Option` captures.
* `Array.prototype.sort` with a numeric comparator is a stable ascending sort
  (guaranteed since ES2019); it is modelled by `List.insertionSort` with `≤`
  on the compared key, which is the stable ascending sort on lists.
* JavaScript objects built by the scripts are modelled by structures with the
  same fields; where a script reads a field that may be absent (returning
  `undefined`), the object is modelled as an association list and the read as
  a lookup defaulting to an explicit `undefined` value.
* `String.prototype.split(sep)`, `trim` and `startsWith` are implemented
  over character lists (`strSplit`, `trimJS`, `strStartsWith`) so that every
  definition evaluates by kernel reduction.
-/

/-! ## JavaScript numeric-string primitives -/

/-- Digit accumulator: the natural number denoted by a list of decimal digits. -/
def natOfDigits (ds : List Nat) : Nat := ds.foldl (fun a d => 10 * a + d) 0

/-- Split a character list into its longest prefix of decimal digits
(as digit values) and the rest. -/
def takeDigits : List Char → List Nat × List Char
  | [] => ([], [])
  | c :: cs =>
    if c.isDigit then
      ((c.toNat - 48) :: (takeDigits cs).1, (takeDigits cs).2)
    else ([], c :: cs)

/-- The signed decimal integer at the head of a character list, `0` when there
are no digits there (used for the exponent part of a float literal, where
JavaScript ignores a malformed exponent suffix). -/
def signedDigitsVal (cs : List Char) : Int :=
  match cs with
  | '-' :: t => if (takeDigits t).1.isEmpty then 0 else -(natOfDigits (takeDigits t).1 : Int)
  | '+' :: t => if (takeDigits t).1.isEmpty then 0 else (natOfDigits (takeDigits t).1 : Int)
  | t => if (takeDigits t).1.isEmpty then 0 else (natOfDigits (takeDigits t).1 : Int)

/-- The exponent denoted by an `e`/`E` suffix, `0` if absent or malformed. -/
def expPartVal : List Char → Int
  | 'e' :: t => signedDigitsVal t
  | 'E' :: t => signedDigitsVal t
  | _ => 0

/-- The parsed components of the decimal literal at the head of a string:
sign, integer-part value, fraction-part value, fraction-part digit count and
exponent.  `none` when there is no digit (JavaScript `NaN`). -/
def parseFloatParts (s : String) : Option (Bool × Nat × Nat × Nat × Int) :=
  let cs := s.toList.dropWhile Char.isWhitespace
  let neg : Bool := match cs with | '-' :: _ => true | _ => false
  let cs1 : List Char := match cs with | '-' :: t => t | '+' :: t => t | _ => cs
  let ip := takeDigits cs1
  let fp : List Nat × List Char := match ip.2 with | '.' :: t => takeDigits t | _ => ([], ip.2)
  if ip.1.isEmpty ∧ fp.1.isEmpty then none
  else some (neg, natOfDigits ip.1, natOfDigits fp.1, fp.1.length, expPartVal fp.2)

/-- The exact rational value `±(ip + fpv / 10^fplen) · 10^e` of parsed float
components, assembled as a single integer quotient so that it evaluates by
kernel reduction. -/
def ratOfParts (p : Bool × Nat × Nat × Nat × Int) : ℚ :=
  let sgn : Int := if p.1 then -1 else 1
  let mantNum : Int := (p.2.1 : Int) * Int.pow 10 p.2.2.2.1 + (p.2.2.1 : Int)
  match p.2.2.2.2 with
  | Int.ofNat k => Rat.divInt (sgn * mantNum * Int.pow 10 k) (Int.pow 10 p.2.2.2.1)
  | Int.negSucc k => Rat.divInt (sgn * mantNum) (Int.pow 10 p.2.2.2.1 * Int.pow 10 (k + 1))

/-- JavaScript `parseFloat`: skip leading whitespace, read the longest prefix
that is a signed decimal literal (optionally with fraction and exponent), and
ignore everything after it; the result is the exact rational value of that
literal.  `none` models `NaN` (no numeric prefix).
(`parseFloat("Infinity")`, which cannot be a rational, also maps to `none`;
no field of the data set holds that literal.) -/
def parseFloatQ (s : String) : Option ℚ := (parseFloatParts s).map ratOfParts

/-- JavaScript `parseInt` (radix 10, as the scripts call it): skip leading
whitespace, read an optional sign and the longest digit prefix; `none` models
`NaN`. -/
def parseIntJS (s : String) : Option Int :=
  let cs := s.toList.dropWhile Char.isWhitespace
  match cs with
  | '-' :: t => if (takeDigits t).1.isEmpty then none else some (-(natOfDigits (takeDigits t).1 : Int))
  | '+' :: t => if (takeDigits t).1.isEmpty then none else some ((natOfDigits (takeDigits t).1 : Int))
  | t => if (takeDigits t).1.isEmpty then none else some ((natOfDigits (takeDigits t).1 : Int))

/-- `simple-statistics` `mean` over exact rationals. -/
def meanQ (l : List ℚ) : ℚ := l.sum / (l.length : ℚ)

/-- Whether the first character list occurs at the head of the second. -/
def matchesAt : List Char → List Char → Bool
  | [], _ => true
  | _ :: _, [] => false
  | p :: ps, c :: cs => p == c && matchesAt ps cs

/-- Whether the first character list occurs contiguously anywhere in the second. -/
def hasSub : List Char → List Char → Bool
  | pat, [] => pat.isEmpty
  | pat, c :: cs => matchesAt pat (c :: cs) || hasSub pat cs

/-- JavaScript `String.prototype.includes`: substring containment. -/
def strContains (s pat : String) : Bool := hasSub pat.toList s.toList

/-- Split a character list at every occurrence of a separator character
(JavaScript `split` semantics: `n` separators yield `n + 1` pieces, empty
pieces included). -/
def splitChar (sep : Char) : List Char → List (List Char)
  | [] => [[]]
  | c :: cs =>
    if c == sep then [] :: splitChar sep cs
    else
      match splitChar sep cs with
      | [] => [[c]]
      | h :: t => (c :: h) :: t

/-- JavaScript `String.prototype.split` with a one-character separator (the
only separators the scripts split on). -/
def strSplit (s : String) (sep : Char) : List String :=
  (splitChar sep s.toList).map fun cs => ⟨cs⟩

/-- JavaScript `String.prototype.trim`: strip whitespace from both ends. -/
def trimJS (s : String) : String :=
  ⟨((s.toList.dropWhile Char.isWhitespace).reverse.dropWhile Char.isWhitespace).reverse⟩

/-- JavaScript `String.prototype.startsWith`. -/
def strStartsWith (s pat : String) : Bool := matchesAt pat.toList s.toList

/-! ## `points_per_trick_analysis.js`: judge-score rows and the middle-4 slice -/

/-- The judge-score columns of one CSV row, as the raw strings the loader in
`points_per_trick_analysis.js` extracts (columns 6,8,10,12,14,16). -/
structure ScoreRow where
  judge1_score : String
  judge2_score : String
  judge3_score : String
  judge4_score : String
  judge5_score : String
  judge6_score : String
deriving DecidableEq

/-- The six raw judge-score strings of a row, in column order. -/
def judgeScoreStrings (row : ScoreRow) : List String :=
  [row.judge1_score, row.judge2_score, row.judge3_score,
   row.judge4_score, row.judge5_score, row.judge6_score]

/-- `scores.sort((a, b) => a - b)`: stable ascending numeric sort. -/
def sortScoresAsc (l : List ℚ) : List ℚ := List.insertionSort (fun a b => a ≤ b) l

/-- `PointsPerTrickAnalyzer.getMiddle4Scores`: parse the six judge scores,
drop the non-numeric ones, return `null` when fewer than 4 remain, otherwise
sort ascending and take `slice(1, 5)`. -/
def getMiddle4Scores (row : ScoreRow) : Option (List ℚ) :=
  let scores := (judgeScoreStrings row).filterMap parseFloatQ
  if scores.length < 4 then none
  else some (((sortScoresAsc scores).drop 1).take 4)

/-- The trimmed mean of a row's judge scores: the `simple-statistics` mean of
the middle-4 slice (the spec's `trimmedMean`; the scripts feed
`getMiddle4Scores` output to `stats.mean`). -/
def trimmedMean (row : ScoreRow) : Option ℚ := (getMiddle4Scores row).map meanQ

/-! ## `enrich_judge_data.js`: panel-extreme exclusion -/

/-- One judge column of a scores row: judge number, judge country and the raw
score string (`JudgeDataEnricher.loadScoresCSV` builds these six entries). -/
structure JudgeEntry where
  num : Nat
  country : String
  score : String
deriving DecidableEq

/-- The `validScores` filter of `findExcludedJudges`: keep judges whose score
string is non-empty and parses to a number, and pair them with that number
(the `scoreNum` field added by the script). -/
def validJudgeScores (js : List JudgeEntry) : List (JudgeEntry × ℚ) :=
  js.filterMap fun j =>
    if j.score = "" then none else (parseFloatQ j.score).map fun q => (j, q)

/-- `[...validScores].sort((a, b) => a.scoreNum - b.scoreNum)`: stable
ascending sort on the parsed score. -/
def sortJudgesByScore (l : List (JudgeEntry × ℚ)) : List (JudgeEntry × ℚ) :=
  List.insertionSort (fun a b => a.2 ≤ b.2) l

instance : IsTotal (JudgeEntry × ℚ) (fun a b => a.2 ≤ b.2) :=
  ⟨fun a b => le_total a.2 b.2⟩

instance : IsTrans (JudgeEntry × ℚ) (fun a b => a.2 ≤ b.2) :=
  ⟨fun _ _ _ h1 h2 => le_trans h1 h2⟩

/-- The `sorted.forEach((judge, idx) => ...)` loop of `findExcludedJudges`:
index `0` is pushed to `excluded` tagged `low`, index `length - 1` is pushed
to `excluded` tagged `high`, every other index goes to `middle4`.  `n` is the
length of the array being traversed, `i` the current index. -/
def exclLoop (n : Nat) : Nat → List (JudgeEntry × ℚ) →
    List ((JudgeEntry × ℚ) × String) × List (JudgeEntry × ℚ)
  | _, [] => ([], [])
  | i, jq :: rest =>
    let r := exclLoop n (i + 1) rest
    if i = 0 then ((jq, "low") :: r.1, r.2)
    else if i = n - 1 then ((jq, "high") :: r.1, r.2)
    else (r.1, jq :: r.2)

/-- `JudgeDataEnricher.findExcludedJudges`: with fewer than 4 valid scores
return empty `excluded`/`middle4`; otherwise sort the valid scores ascending
(stably) and split off the first element as the `low` exclusion and the last
as the `high` exclusion, the rest being `middle4`. -/
def findExcludedJudges (js : List JudgeEntry) :
    List ((JudgeEntry × ℚ) × String) × List (JudgeEntry × ℚ) :=
  let valid := validJudgeScores js
  if valid.length < 4 then ([], [])
  else
    let sorted := sortJudgesByScore valid
    exclLoop sorted.length 0 sorted

/-- Spec-side description of a scan extreme: the first element of the list
(in original array order) whose key is minimal — on key ties the earlier
element is kept. -/
def firstMinBy (k : JudgeEntry × ℚ → ℚ) : JudgeEntry × ℚ → List (JudgeEntry × ℚ) → JudgeEntry × ℚ
  | x, [] => x
  | x, y :: l => if k (firstMinBy k y l) < k x then firstMinBy k y l else x

/-- Spec-side description of a scan extreme: the last element of the list
(in original array order) whose key is maximal — on key ties the later
element is kept. -/
def lastMaxBy (k : JudgeEntry × ℚ → ℚ) : JudgeEntry × ℚ → List (JudgeEntry × ℚ) → JudgeEntry × ℚ
  | x, [] => x
  | x, y :: l => if k x ≤ k (lastMaxBy k y l) then lastMaxBy k y l else x

/-! ## Run classification -/

/-- The run-status assignment of `MasterDataPipeline.run`: a literal `DNI`
final score takes the DNI-resolution reason (`dni_unknown` when the lookup
misses or the reason field is falsy); a numeric score is `clean` when at
least 50 and `wipeout` when below 50; anything else is `unknown`.
`dni` is the looked-up `dni_reason` for the row's competitor and run. -/
def runStatusMaster (dni : Option String) (final_score : String) : String :=
  if final_score = "DNI" then
    match dni with
    | some r => if r = "" then "dni_unknown" else r
    | none => "dni_unknown"
  else
    match parseFloatQ final_score with
    | some q => if 50 ≤ q then "clean" else if q < 50 then "wipeout" else "unknown"
    | none => "unknown"

/-- One row of the raw scores CSV, as used by the report generators. -/
structure RunRow where
  competitor : String
  position : String
  run : String
  final_score : String
deriving DecidableEq

/-- Lookup in an association list keyed by strings (the report generators'
`dniMap[key]` object lookups). -/
def lookupStr (m : List (String × String)) (k : String) : Option String :=
  (m.find? fun p => p.1 = k).map fun p => p.2

/-- `PremiumReport.getRunStatus`: a literal `DNI` score resolves through the
DNI map (falling back to `dni_unknown`); otherwise
`parseFloat(final_score) >= 50 ? 'clean' : 'wipeout'` — note that a
non-numeric score compares false and thus classifies `wipeout` here. -/
def getRunStatus (dniMap : List (String × String)) (row : RunRow) : String :=
  if row.final_score = "DNI" then
    match lookupStr dniMap (row.competitor ++ "-" ++ row.run) with
    | some r => if r = "" then "dni_unknown" else r
    | none => "dni_unknown"
  else
    match parseFloatQ row.final_score with
    | some q => if 50 ≤ q then "clean" else "wipeout"
    | none => "wipeout"

/-! ## `computeRelief` / `computeCrashStreaks`: the streak state machine -/

/-- The streak update of the report generators:
`if (status === 'wipeout' || status === 'crash') streak++;
else if (status === 'clean' || status === 'did_not_improve' ||
status === 'strategic_skip') streak = 0;` — any other status (in particular
`dni_unknown` and `unknown`) leaves the streak unchanged. -/
def streakStep (streak : Nat) (status : String) : Nat :=
  if status = "wipeout" ∨ status = "crash" then streak + 1
  else if status = "clean" ∨ status = "did_not_improve" ∨ status = "strategic_skip" then 0
  else streak

/-- The body of `computeRelief` over one round's position-ordered rows: emit
each `clean` row paired with the streak value before the update, then update
the streak. -/
def reliefAux (dniMap : List (String × String)) : Nat → List RunRow → List (RunRow × Nat)
  | _, [] => []
  | streak, r :: rest =>
    (if getRunStatus dniMap r = "clean" then [(r, streak)] else []) ++
      reliefAux dniMap (streakStep streak (getRunStatus dniMap r)) rest

/-- `PremiumReport.computeRelief` (also `computeCrashStreaks` of
`generate_report.js`): run the streak scan over each round separately, each
starting from streak `0`, and concatenate the emissions in round order.
`rounds` are the per-round row lists, already sorted by ascending position
(the script's `filter(run === round).sort(by position)`). -/
def computeRelief (dniMap : List (String × String)) (rounds : List (List RunRow)) :
    List (RunRow × Nat) :=
  (rounds.map (reliefAux dniMap 0)).flatten

/-- Statuses the streak loop counts as witnessed failures. -/
def isFailureStatus (s : String) : Bool := s = "wipeout" || s = "crash"

/-- Statuses the streak loop treats as completed attempts (resetting). -/
def isCompletedStatus (s : String) : Bool :=
  s = "clean" || s = "did_not_improve" || s = "strategic_skip"

/-- Spec-side streak value after a list of statuses: the number of
witnessed-failure statuses since the most recent completed-attempt status
(statuses that are neither — `dni_unknown`, `unknown` — are skipped without
resetting). -/
def streakSpec (statuses : List String) : Nat :=
  (statuses.reverse.takeWhile fun s => !(isCompletedStatus s)).countP isFailureStatus

/-- Spec-side emission list for one round, parameterized by the function that
computes a streak value from the statuses preceding a row: every `clean` row
is emitted carrying that value of its preceding-status list. -/
def reliefGoWith (count : List String → Nat) (dniMap : List (String × String))
    (pre : List String) : List RunRow → List (RunRow × Nat)
  | [] => []
  | r :: rest =>
    (if getRunStatus dniMap r = "clean" then [(r, count pre)] else []) ++
      reliefGoWith count dniMap (pre ++ [getRunStatus dniMap r]) rest

/-- Spec-side emission list for one round with the code's streak semantics. -/
def reliefSpecRound (dniMap : List (String × String)) (round : List RunRow) :
    List (RunRow × Nat) :=
  reliefGoWith streakSpec dniMap [] round

/-- Statuses the claim asserts to reset the streak: the completed attempts
*plus* the incomplete-unknown classifications. -/
def claimCompletedStatus (s : String) : Bool :=
  s = "clean" || s = "strategic_skip" || s = "did_not_improve" ||
    s = "dni_unknown" || s = "unknown"

/-- Streak value as the claim states it: the number of consecutive
witnessed-failure statuses immediately preceding (every non-failure,
including incomplete-unknown, resets). -/
def claimStreak (statuses : List String) : Nat :=
  (statuses.reverse.takeWhile fun s => !(claimCompletedStatus s)).countP isFailureStatus

/-- Spec-side emission list for one round with the claim's streak semantics. -/
def reliefClaimRound (dniMap : List (String × String)) (round : List RunRow) :
    List (RunRow × Nat) :=
  reliefGoWith claimStreak dniMap [] round

/-! ## `analyze.js`: the tabular loader -/

/-- `HalfpipeAnalyzer.loadDataFromCSV`: trim the file content, split into
lines, take the first line's comma-split fields as headers, and map every
further line to a record pairing each trimmed header, in order, with the
line's field at the same index (trimmed) — `none` models the `undefined`
produced by `values[idx]?.trim()` when the line has fewer fields than the
header.  (Records are modelled as ordered field lists; the scripts' CSVs have
distinct headers, so object-key overwriting never arises.) -/
def loadDataFromCSV (content : String) : List (List (String × Option String)) :=
  let lines := strSplit (trimJS content) '\n'
  let headers := strSplit (lines.headD "") ','
  (lines.drop 1).map fun line =>
    let values := strSplit line ','
    headers.enum.map fun p => (trimJS p.2, (values.get? p.1).map trimJS)

/-! ## `analyze.js`: consecutive-scores correlation -/

/-- A row of the overview CSV as `analyzeConsecutiveScores` reads it. -/
structure BestRow where
  best_score : String
deriving DecidableEq

/-- NaN-propagating subtraction on parsed scores. -/
def subNaN (a b : Option ℚ) : Option ℚ :=
  match a, b with
  | some x, some y => some (x - y)
  | _, _ => none

/-- One entry of the `pairs` array of `analyzeConsecutiveScores`. -/
structure ConsecutivePair where
  rank : Nat
  previousScore : Option ℚ
  currentScore : Option ℚ
  scoreDifference : Option ℚ
deriving DecidableEq

/-- The `for (let i = 1; ...)` pair-building loop. -/
def buildPairsGo : Nat → Option ℚ → List (Option ℚ) → List ConsecutivePair
  | _, _, [] => []
  | i, prev, cur :: rest =>
    ⟨i, prev, cur, subNaN cur prev⟩ :: buildPairsGo (i + 1) cur rest

/-- The `pairs` array of `analyzeConsecutiveScores`. -/
def buildPairs : List (Option ℚ) → List ConsecutivePair
  | [] => []
  | s0 :: rest => buildPairsGo 1 s0 rest

/-- All-numeric check on a score list (`NaN` anywhere poisons the
correlation). -/
def allSomeQ : List (Option ℚ) → Option (List ℚ)
  | [] => some []
  | none :: _ => none
  | some q :: rest => (allSomeQ rest).map fun l => q :: l

/-- The sufficient statistics of `stats.sampleCorrelation`: the centered
cross-product sum and the two centered square sums, over exact rationals.
The float correlation is `num / √(dx·dy)`; the square root is not rational,
so the engine's correlation output is represented by this triple (`none`
models the `NaN` produced when any input is non-numeric). -/
def sampleCorrelationStats (xs ys : List (Option ℚ)) : Option (ℚ × ℚ × ℚ) :=
  match allSomeQ xs, allSomeQ ys with
  | some x, some y =>
    let xm := meanQ x
    let ym := meanQ y
    let zipped := x.zip y
    some ((zipped.map fun p => (p.1 - xm) * (p.2 - ym)).sum,
      (x.map fun v => (v - xm) * (v - xm)).sum,
      (y.map fun v => (v - ym) * (v - ym)).sum)
  | _, _ => none

/-- The record `analyzeConsecutiveScores` returns on success. -/
structure ConsecutiveAnalysis where
  pairs : List ConsecutivePair
  pairCount : Nat
  corrStats : Option (ℚ × ℚ × ℚ)
deriving DecidableEq

/-- `HalfpipeAnalyzer.analyzeConsecutiveScores`: parse every row's
`best_score`, return `null` (after a console warning) when there are fewer
than 2 rows, and otherwise build the consecutive pairs and correlate previous
against current scores. -/
def analyzeConsecutiveScores (rows : List BestRow) : Option ConsecutiveAnalysis :=
  let scores := rows.map fun r => parseFloatQ r.best_score
  if scores.length < 2 then none
  else
    let pairs := buildPairs scores
    some ⟨pairs, pairs.length,
      sampleCorrelationStats (pairs.map fun p => p.previousScore)
        (pairs.map fun p => p.currentScore)⟩

/-! ## `TrickDifficultyScorer` (the difficulty scorer of the premium-report
file): rotation, cork, spin, grab and specials extraction -/

/-- The scorer's fixed rotation lookup table
`{3: 360, 5: 540, 7: 720, 9: 900, 10: 1080, 12: 1260, 14: 1440, 16: 1600}`. -/
def rotationMap (n : Int) : Option Int :=
  if n = 3 then some 360
  else if n = 5 then some 540
  else if n = 7 then some 720
  else if n = 9 then some 900
  else if n = 10 then some 1080
  else if n = 12 then some 1260
  else if n = 14 then some 1440
  else if n = 16 then some 1600
  else none

/-- The `for (const part of parts)` loop of the scorer's `extractRotation`:
return `(code, degrees)` for the first token whose `parseInt` value is a key
of the rotation table, `(0, 0)` when none is. -/
def extractRotationScan : List String → Int × Int
  | [] => (0, 0)
  | p :: ps =>
    match parseIntJS p with
    | some n =>
      match rotationMap n with
      | some d => (n, d)
      | none => extractRotationScan ps
    | none => extractRotationScan ps

/-- `TrickDifficultyScorer.extractRotation`: split the trick code on `-` and
scan the tokens. -/
def extractRotation (trick : String) : Int × Int :=
  extractRotationScan (strSplit trick '-')

/-- The claim's reading of the rotation-extraction step, written with
`List.findSome?`: the first token carrying a table value wins, absence of any
table value yields rotation `0`. -/
def rotationSpec (trick : String) : Int × Int :=
  ((strSplit trick '-').findSome? fun p =>
    (parseIntJS p).bind fun n => (rotationMap n).map fun d => (n, d)).getD (0, 0)

/-- `TrickDifficultyScorer.extractCork`: substring priority
triple > double > single > none with multipliers 2.0 / 1.5 / 1.2 / 1.0. -/
def extractCork (trick : String) : String × ℚ :=
  if strContains trick "TC" then ("TC", 2)
  else if strContains trick "DC" then ("DC", 3 / 2)
  else if strContains trick "SC" then ("SC", 6 / 5)
  else ("none", 1)

/-- `TrickDifficultyScorer.extractSpinDirection`: returns the direction label
and the switch flag. -/
def extractSpinDirection (trick : String) : String × Bool :=
  if strStartsWith trick "Cab" then ("Cab", true)
  else if strStartsWith trick "x-" then
    (match (strSplit trick '-').get? 1 with
     | some v => if v = "" then "switch" else v
     | none => "switch", true)
  else if strStartsWith trick "f-" || strStartsWith trick "f" then ("frontside", false)
  else if strStartsWith trick "b-" || strStartsWith trick "bs" then ("backside", false)
  else ("unknown", false)

/-- The scorer's `knownGrabs` token table. -/
def knownGrabs (p : String) : Option String :=
  if p = "Mu" then some "mute"
  else if p = "Ng" then some "nose grab"
  else if p = "Jp" then some "japan"
  else if p = "Tdr" then some "tail drag"
  else if p = "I" then some "indy"
  else if p = "St" then some "stalefish"
  else if p = "Ddr" then some "double grab"
  else if p = "Me" then some "melon"
  else if p = "Tg" then some "tail grab"
  else if p = "Ste" then some "stalefish extended"
  else none

/-- `TrickDifficultyScorer.extractGrab`: the recognized grab tokens in order,
the combo flag (`includes('-to-')`) and the grab count. -/
def extractGrab (trick : String) : List (String × String) × Bool × Nat :=
  let grabs := (strSplit trick '-').filterMap fun p => (knownGrabs p).map fun n => (p, n)
  (grabs, strContains trick "-to-", grabs.length)

/-- `TrickDifficultyScorer.extractSpecials`: additive special-move bonuses. -/
def extractSpecials (trick : String) : List (String × String × ℚ) :=
  (if strContains trick "AO" then [("AO", "alley-oop", (1 : ℚ))] else []) ++
  (if strContains trick "Rd" then [("Rd", "rodeo", 1)] else []) ++
  (if strContains trick "CF" then [("CF", "corkflip", 1)] else []) ++
  (if strContains trick "Mc" then [("Mc", "McTwist", 3 / 2)] else [])

/-- The scorer's `rotationScoreMap`, with the `|| 0.5` fallback as the final
branch. -/
def rotationScoreMap (deg : Int) : ℚ :=
  if deg = 0 then 1 / 2
  else if deg = 360 then 1
  else if deg = 540 then 3 / 2
  else if deg = 720 then 2
  else if deg = 900 then 3
  else if deg = 1080 then 4
  else if deg = 1260 then 5
  else if deg = 1440 then 6
  else if deg = 1600 then 7
  else 1 / 2

/-- The full result object of `TrickDifficultyScorer.scoreTrick`. -/
structure TrickScore where
  trickCode : String
  rotation : Int × Int
  cork : String × ℚ
  spin : String × Bool
  grabs : List (String × String)
  hasCombo : Bool
  grabCount : Nat
  specials : List (String × String × ℚ)
  rotationBase : ℚ
  corkMultiplied : ℚ
  switchBonus : ℚ
  grabBonus : ℚ
  comboBonus : ℚ
  specialsBonus : ℚ
  totalDifficulty : ℚ
  complexity : Nat
deriving DecidableEq

/-- `trick.split('-').length`, the complexity proxy. -/
def estimateComplexity (trick : String) : Nat := (strSplit trick '-').length

/-- The computation of `TrickDifficultyScorer.scoreTrick` on a non-empty
trick code (cache handling aside). -/
def scoreTrickCore (trickCode : String) : TrickScore :=
  let rotation := extractRotation trickCode
  let cork := extractCork trickCode
  let spin := extractSpinDirection trickCode
  let grab := extractGrab trickCode
  let specials := extractSpecials trickCode
  let rotationScore := rotationScoreMap rotation.2
  let corkedScore := rotationScore * cork.2
  let switchBonus : ℚ := if spin.2 then 1 / 2 else 0
  let grabBonus : ℚ := if 0 < grab.2.2 then 1 / 2 else 0
  let comboBonus : ℚ := if grab.2.1 then 1 / 2 else 0
  let specialsBonus : ℚ := (specials.map fun s => s.2.2).sum
  ⟨trickCode, rotation, cork, spin, grab.1, grab.2.1, grab.2.2, specials,
    rotationScore, corkedScore, switchBonus, grabBonus, comboBonus, specialsBonus,
    corkedScore + switchBonus + grabBonus + comboBonus + specialsBonus,
    estimateComplexity trickCode⟩

/-- `TrickDifficultyScorer.scoreTrick` with its memo cache made explicit:
empty or whitespace-only codes return `null`; a cache hit returns the cached
object unchanged; otherwise the score is computed and stored.  (The cache is
modelled as an exact string map; keys inherited from `Object.prototype` are
not modelled — no trick code collides with them.) -/
def scoreTrick (cache : List (String × TrickScore)) (trickCode : String) :
    Option TrickScore × List (String × TrickScore) :=
  if trimJS trickCode = "" then (none, cache)
  else
    match (cache.find? fun p => p.1 = trickCode).map (fun p => p.2) with
    | some r => (some r, cache)
    | none => (some (scoreTrickCore trickCode), (trickCode, scoreTrickCore trickCode) :: cache)

/-! ## `trick_difficulty_exploration.js`: the exploratory trick parser -/

/-- Whether the estimator's rotation regex (dash, `1`, digit, then either
another dash or the end of the string; two alternatives of the same shape)
matches at the head of the character list; on a match, the value of the
captured two-digit number. -/
def rotRegexAt : List Char → Option Int
  | '-' :: '1' :: d :: rest =>
    if d.isDigit then
      match rest with
      | [] => some (10 + ((d.toNat : Int) - 48))
      | '-' :: _ => some (10 + ((d.toNat : Int) - 48))
      | _ => none
    else none
  | _ => none

/-- Leftmost-match scan of the regex over the whole string. -/
def rotRegexScan : List Char → Option Int
  | [] => none
  | c :: cs =>
    match rotRegexAt (c :: cs) with
    | some n => some n
    | none => rotRegexScan cs

/-- `TrickDifficultyEstimator.extractRotation`: the regex-based rotation code
(`10`–`19`), or `null` when the pattern does not occur. -/
def extractRotationExp (trick : String) : Option Int := rotRegexScan trick.toList

/-- The object returned by `TrickDifficultyEstimator.parseTrick` on a
non-empty code. -/
structure ParsedTrick where
  fullCode : String
  rotation : Option Int
  hasFlip : Bool
  hasCork : Bool
  complexity : Nat
deriving DecidableEq

/-- `TrickDifficultyEstimator.parseTrick`: `null` on empty or whitespace-only
codes; otherwise the rotation, flip and cork flags and the complexity.
(The script's flip regex — two equivalent alternatives — is precisely
"starts with `f-` or `b-`".) -/
def parseTrick (trick : String) : Option ParsedTrick :=
  if trimJS trick = "" then none
  else some
    { fullCode := trick
      rotation := extractRotationExp trick
      hasFlip := strStartsWith trick "f-" || strStartsWith trick "b-" || strContains trick "Cab"
      hasCork := strContains trick "DC" || strContains trick "TC"
      complexity := estimateComplexity trick }

/-! ## Grouped aggregation -/

/-- One step of the JavaScript grouping idiom
`if (!groups[k]) groups[k] = []; groups[k].push(x)` over an association list:
append `x` to the partition keyed `k`, creating it if absent. -/
def insertGroup [DecidableEq κ] (k : κ) (x : α) :
    List (κ × List α) → List (κ × List α)
  | [] => [(k, [x])]
  | g :: rest =>
    if g.1 = k then (g.1, g.2 ++ [x]) :: rest
    else g :: insertGroup k x rest

/-- The grouped-aggregation partitioning shared by the analysis scripts
(`byCrashCount` in `judge_bias_analysis.js`, `complexityMap` and
`trickDifficultyMap` in `trick_difficulty_exploration.js`): fold every record
into the partition selected by the grouping function. -/
def groupAcc [DecidableEq κ] (f : α → κ) (l : List α) : List (κ × List α) :=
  l.foldl (fun acc x => insertGroup (f x) x acc) []

/-! ## `MomentumAnalyzer.analyzeRecoveryMomentum` -/

/-- A JavaScript value as the momentum analyzer handles them: a number, a
boolean, or `undefined` (the result of reading an absent property). -/
inductive JSVal where
  | undefined : JSVal
  | num : ℚ → JSVal
  | bool : Bool → JSVal
deriving DecidableEq

/-- JavaScript truthiness of the modelled values (`undefined` and `0` are
falsy). -/
def truthy : JSVal → Bool
  | .undefined => false
  | .num q => !(q == 0)
  | .bool b => b

/-- The per-run object literal `{ round, score, isWipeout }` built at the top
of `analyzeRecoveryMomentum`, as an ordered field list. -/
def mkRunEntry (round : Nat) (score : ℚ) (isWipeoutV : Bool) : List (String × JSVal) :=
  [("round", .num (round : ℚ)), ("score", .num score), ("isWipeout", .bool isWipeoutV)]

/-- A JavaScript property read: the value at the key, `undefined` when the
object has no such key. -/
def getField (o : List (String × JSVal)) (k : String) : JSVal :=
  ((o.find? fun p => p.1 = k).map fun p => p.2).getD .undefined

/-- One row of the overview CSV as the momentum analyzer reads it. -/
structure CompetitorRow where
  competitor : String
  run1 : String
  run2 : String
  run3 : String
deriving DecidableEq

/-- The `runs` array of `analyzeRecoveryMomentum` for one competitor: the
three per-round entries, keeping only those whose score parsed
(`filter(r => !isNaN(r.score))`); `isWipeout(score)` is `score < 50`. -/
def runsOf (c : CompetitorRow) : List (List (String × JSVal)) :=
  ([(1, parseFloatQ c.run1), (2, parseFloatQ c.run2), (3, parseFloatQ c.run3)]
      : List (Nat × Option ℚ)).filterMap
    fun p => p.2.map fun q => mkRunEntry p.1 q (decide (q < 50))

/-- NaN-propagating subtraction on JavaScript values. -/
def jsSub : JSVal → JSVal → JSVal
  | .num a, .num b => .num (a - b)
  | _, _ => .undefined

/-- One recovery record as `analyzeRecoveryMomentum` would push it. -/
structure RecoveryRec where
  competitor : String
  wipeoutRound : JSVal
  wipeoutScore : JSVal
  recoveryRound : JSVal
  recoveryScore : JSVal
  improvement : JSVal
deriving DecidableEq

/-- The `for (let i = 1; i < runs.length; i++)` scan of
`analyzeRecoveryMomentum`: push a recovery record whenever
`runs[i-1].isWipeout && runs[i].isCleanRun` — both read as properties of the
run objects. -/
def recoveryScan (name : String) : List (List (String × JSVal)) → List RecoveryRec
  | a :: b :: rest =>
    (if truthy (getField a "isWipeout") && truthy (getField b "isCleanRun") then
      [⟨name, getField a "round", getField a "score", getField b "round",
        getField b "score", jsSub (getField b "score") (getField a "score")⟩]
    else []) ++ recoveryScan name (b :: rest)
  | _ => []

/-- `MomentumAnalyzer.analyzeRecoveryMomentum`: the concatenated recovery
records over all competitors. -/
def analyzeRecoveryMomentum (competitors : List CompetitorRow) : List RecoveryRec :=
  (competitors.map fun c => recoveryScan c.competitor (runsOf c)).flatten

/-! ## Theorems -/

/-- Claim C1: for every input of exactly 6 numeric judge scores, the middle-4
extraction returns exactly the ascending-sorted scores at indices 1 through 4
(the lowest, index 0, and the highest, index 5, are discarded), and the
trimmed mean is the arithmetic mean of those four sorted scores. -/
theorem trimmedMean_middle4_of_six_scores (row : ScoreRow)
    (q1 q2 q3 q4 q5 q6 a b c d e f : ℚ)
    (h1 : parseFloatQ row.judge1_score = some q1)
    (h2 : parseFloatQ row.judge2_score = some q2)
    (h3 : parseFloatQ row.judge3_score = some q3)
    (h4 : parseFloatQ row.judge4_score = some q4)
    (h5 : parseFloatQ row.judge5_score = some q5)
    (h6 : parseFloatQ row.judge6_score = some q6)
    (hs : sortScoresAsc [q1, q2, q3, q4, q5, q6] = [a, b, c, d, e, f]) :
    getMiddle4Scores row = some [b, c, d, e] ∧
      trimmedMean row = some ((b + c + d + e) / 4) := by
  have hsc : (judgeScoreStrings row).filterMap parseFloatQ = [q1, q2, q3, q4, q5, q6] := by
    simp [judgeScoreStrings, h1, h2, h3, h4, h5, h6]
  have hm : getMiddle4Scores row = some [b, c, d, e] := by
    unfold getMiddle4Scores
    rw [hsc]
    simp [hs]
  refine ⟨hm, ?_⟩
  unfold trimmedMean
  rw [hm]
  simp [meanQ]
  ring

/-- Witness for C1 at the spec's own example `[89, 95, 91, 91, 91, 91]`. -/
theorem trimmedMean_middle4_witness :
    getMiddle4Scores ⟨"89", "95", "91", "91", "91", "91"⟩ = some [91, 91, 91, 91] ∧
      trimmedMean ⟨"89", "95", "91", "91", "91", "91"⟩ = some ((91 + 91 + 91 + 91) / 4) :=
  trimmedMean_middle4_of_six_scores ⟨"89", "95", "91", "91", "91", "91"⟩
    89 95 91 91 91 91 89 91 91 91 91 95 rfl rfl rfl rfl rfl rfl (by decide)

/-- Claim C4: for every record with a numeric final score, the master
pipeline's run status is `clean` exactly when the score is at least 50 and
`wipeout` exactly when it is below 50, and the classification is unique (the
status assignment is a total function, so every loaded record receives
exactly one classification). -/
theorem runStatus_clean_iff_ge_50 (dni : Option String) (fs : String) (q : ℚ)
    (hq : parseFloatQ fs = some q) :
    (runStatusMaster dni fs = "clean" ↔ 50 ≤ q) ∧
      (runStatusMaster dni fs = "wipeout" ↔ q < 50) ∧
      (∃! c, runStatusMaster dni fs = c) := by
  have hdni : fs ≠ "DNI" := by
    intro h
    rw [h] at hq
    exact Option.noConfusion ((rfl : parseFloatQ "DNI" = none) ▸ hq)
  have hr : runStatusMaster dni fs =
      if 50 ≤ q then "clean" else if q < 50 then "wipeout" else "unknown" := by
    unfold runStatusMaster
    rw [if_neg hdni, hq]
  refine ⟨?_, ?_, ⟨_, rfl, fun y hy => hy.symm⟩⟩
  · rcases le_or_lt 50 q with hge | hlt
    · rw [hr, if_pos hge]
      exact ⟨fun _ => hge, fun _ => rfl⟩
    · rw [hr, if_neg (not_le_of_lt hlt), if_pos hlt]
      exact ⟨fun h => absurd h (by decide), fun h => absurd hlt (not_lt_of_le h)⟩
  · rcases le_or_lt 50 q with hge | hlt
    · rw [hr, if_pos hge]
      exact ⟨fun h => absurd h (by decide), fun h => absurd hge (not_le_of_lt h)⟩
    · rw [hr, if_neg (not_le_of_lt hlt), if_pos hlt]
      exact ⟨fun _ => hlt, fun _ => rfl⟩

/-- Witness for C4 at the boundary: `50.0` is classified `clean`, `49.99` is
classified `wipeout`. -/
theorem runStatus_boundary_witness :
    runStatusMaster none "50.0" = "clean" ∧ runStatusMaster none "49.99" = "wipeout" :=
  ⟨(runStatus_clean_iff_ge_50 none "50.0" (Rat.divInt 500 10) rfl).1.mpr (by decide),
   (runStatus_clean_iff_ge_50 none "49.99" (Rat.divInt 4999 100) rfl).2.1.mpr (by decide)⟩

/-- Claim C7: the difficulty scorer's rotation extraction scans the trick
code's `-`-separated tokens for a value of the fixed lookup table
(3 to 360, 5 to 540, 7 to 720, 9 to 900, 10 to 1080, 12 to 1260, 14 to 1440,
16 to 1600); the first match wins, and when no token carries a table value
the rotation is 0 degrees: the scan equals the first-match description
written with `List.findSome?`. -/
theorem extractRotation_first_match (trick : String) :
    extractRotation trick = rotationSpec trick := by
  unfold extractRotation rotationSpec
  induction strSplit trick '-' with
  | nil => rfl
  | cons p ps ih =>
    unfold extractRotationScan
    rw [List.findSome?_cons]
    cases hp : parseIntJS p with
    | none => simpa [hp] using ih
    | some n =>
      cases hr : rotationMap n with
      | none => simpa [hp, hr] using ih
      | some d => simp [hp, hr]

/-- Claim C10: the recovery-momentum analysis returns an empty list on every
input: the run objects are built with only `round`, `score` and `isWipeout`,
so the `isCleanRun` property read in the scan is always `undefined` and the
wipeout-then-clean conjunction never fires. -/
theorem analyzeRecoveryMomentum_empty (competitors : List CompetitorRow) :
    analyzeRecoveryMomentum competitors = [] := by
  have hclean : ∀ (c : CompetitorRow) (e : List (String × JSVal)), e ∈ runsOf c →
      getField e "isCleanRun" = JSVal.undefined := by
    intro c e he
    unfold runsOf at he
    rcases List.mem_filterMap.mp he with ⟨p, _, hp⟩
    rcases Option.map_eq_some'.mp hp with ⟨q, _, hq⟩
    rw [← hq]
    rfl
  have hscan : ∀ (name : String) (l : List (List (String × JSVal))),
      (∀ e ∈ l, getField e "isCleanRun" = JSVal.undefined) → recoveryScan name l = [] := by
    intro name l
    induction l with
    | nil => intro _; rfl
    | cons a t ih =>
      intro hmem
      cases t with
      | nil => rfl
      | cons b rest =>
        unfold recoveryScan
        rw [hmem b (by simp), ih (fun e he => hmem e (List.mem_cons_of_mem a he))]
        simp [truthy]
  unfold analyzeRecoveryMomentum
  rw [List.flatten_eq_nil_iff]
  intro l hl
  rcases List.mem_map.mp hl with ⟨c, _, hc⟩
  rw [← hc]
  exact hscan c.competitor (runsOf c) (hclean c)

/-- Appending into a partition inserts the new record, up to permutation, at
the front of the flattened partition contents. -/
theorem insertGroup_flatten_perm [DecidableEq κ] (k : κ) (x : α) (acc : List (κ × List α)) :
    List.Perm ((insertGroup k x acc).map (fun g => g.2)).flatten
      (x :: (acc.map (fun g => g.2)).flatten) := by
  induction acc with
  | nil => simp [insertGroup]
  | cons g rest ih =>
    unfold insertGroup
    by_cases hk : g.1 = k
    · rw [if_pos hk]
      simp only [List.map_cons, List.flatten_cons, List.append_assoc, List.singleton_append]
      exact List.perm_middle
    · rw [if_neg hk]
      simp only [List.map_cons, List.flatten_cons]
      exact (List.Perm.append_left g.2 ih).trans List.perm_middle

/-- Folding records into partitions appends them, up to permutation, to the
flattened partition contents. -/
theorem groupAcc_flatten_perm_aux [DecidableEq κ] (f : α → κ) (l : List α)
    (acc : List (κ × List α)) :
    List.Perm ((l.foldl (fun acc x => insertGroup (f x) x acc) acc).map (fun g => g.2)).flatten
      ((acc.map (fun g => g.2)).flatten ++ l) := by
  induction l generalizing acc with
  | nil => simp
  | cons x t ih =>
    simp only [List.foldl_cons]
    refine (ih (insertGroup (f x) x acc)).trans ?_
    refine (List.Perm.append_right t (insertGroup_flatten_perm (f x) x acc)).trans ?_
    exact List.perm_middle.symm

/-- Partition insertion never creates an empty partition. -/
theorem insertGroup_ne_nil [DecidableEq κ] (k : κ) (x : α) (acc : List (κ × List α)) :
    (∀ g ∈ acc, g.2 ≠ []) → ∀ g ∈ insertGroup k x acc, g.2 ≠ [] := by
  induction acc with
  | nil =>
    intro _ g hg
    rcases List.mem_singleton.mp hg with rfl
    simp
  | cons a rest ih =>
    intro h g hg
    unfold insertGroup at hg
    by_cases hk : a.1 = k
    · rw [if_pos hk] at hg
      rcases List.mem_cons.mp hg with rfl | hmem
      · simp
      · exact h g (List.mem_cons_of_mem a hmem)
    · rw [if_neg hk] at hg
      rcases List.mem_cons.mp hg with rfl | hmem
      · exact h g (List.mem_cons_self g rest)
      · exact ih (fun g hg => h g (List.mem_cons_of_mem a hg)) g hmem

/-- Folding records into partitions preserves partition non-emptiness. -/
theorem groupAcc_nonempty_aux [DecidableEq κ] (f : α → κ) (l : List α)
    (acc : List (κ × List α)) (h : ∀ g ∈ acc, g.2 ≠ []) :
    ∀ g ∈ l.foldl (fun acc x => insertGroup (f x) x acc) acc, g.2 ≠ [] := by
  induction l generalizing acc with
  | nil => exact h
  | cons x t ih =>
    simp only [List.foldl_cons]
    exact ih (insertGroup (f x) x acc) (insertGroup_ne_nil (f x) x acc h)

/-- Claim C9: for every record list and every (total) grouping function,
the grouped-aggregation partitioning places each record in exactly one
partition — the concatenation of all partitions is a permutation of the
input, so the partition counts sum to the input count with nothing dropped
or double-counted — and no partition in the output is empty (empty groups
are never created, hence never emitted as zero-valued entries). -/
theorem groupAcc_partitions [DecidableEq κ] (f : α → κ) (l : List α) :
    List.Perm ((groupAcc f l).map (fun g => g.2)).flatten l ∧
      ∀ g ∈ groupAcc f l, g.2 ≠ [] := by
  constructor
  · simpa [groupAcc] using groupAcc_flatten_perm_aux f l []
  · exact groupAcc_nonempty_aux f l [] (by simp)

/-- Witness for C9 on a concrete grouping: the identity key over `[1, 2, 1]`. -/
theorem groupAcc_partitions_witness :
    List.Perm ((groupAcc (fun n : Nat => n) [1, 2, 1]).map (fun g => g.2)).flatten [1, 2, 1] ∧
      ((1 : Nat), [1, 1]).2 ≠ ([] : List Nat) :=
  ⟨(groupAcc_partitions (fun n : Nat => n) [1, 2, 1]).1,
   (groupAcc_partitions (fun n : Nat => n) [1, 2, 1]).2 (1, [1, 1]) (by decide)⟩

/-- Counterexample for C5: on an input whose single data row has 1 field
against a 2-field header, the loader returns a record (padding the missing
field with `undefined`) instead of failing — no `MalformedInputError` exists
anywhere in the scripts, and no loader code path can fail on a field-count
mismatch. -/
theorem loadDataFromCSV_counterexample :
    loadDataFromCSV "a,b\n1" = [[("a", some "1"), ("b", none)]] ∧
      (strSplit "a,b" ',').length = 2 ∧ (strSplit "1" ',').length = 1 := by
  refine ⟨?_, by decide, by decide⟩
  decide

/-- Claim C5, amended: the tabular loader is total — for every input it
returns one record per data line (it never fails), and each record pairs
exactly the trimmed headers, in order, with the row's positional fields,
missing fields reading as `undefined`; records are produced even for rows
whose field count differs from the header's. -/
theorem loadDataFromCSV_total_shape (content : String) :
    (loadDataFromCSV content).length = (strSplit (trimJS content) '\n').length - 1 ∧
      ∀ rec ∈ loadDataFromCSV content,
        rec.map (fun p => p.1) =
          (strSplit ((strSplit (trimJS content) '\n').headD "") ',').map trimJS := by
  constructor
  · unfold loadDataFromCSV
    simp
  · intro rec hrec
    unfold loadDataFromCSV at hrec
    rcases List.mem_map.mp hrec with ⟨line, _, hline⟩
    rw [← hline]
    simp only [List.map_map]
    rw [show ((fun p : String × Option String => p.1) ∘ fun p : Nat × String =>
        (trimJS p.2, (((strSplit line ',').get? p.1).map trimJS))) =
        (trimJS ∘ Prod.snd) from rfl]
    rw [← List.map_map, List.enum_map_snd]

/-- Witness for C5's amended claim at the counterexample input. -/
theorem loadDataFromCSV_total_shape_witness :
    (loadDataFromCSV "a,b\n1").length = (strSplit (trimJS "a,b\n1") '\n').length - 1 ∧
      ([("a", some "1"), ("b", none)] : List (String × Option String)).map (fun p => p.1) =
        (strSplit ((strSplit (trimJS "a,b\n1") '\n').headD "") ',').map trimJS :=
  ⟨(loadDataFromCSV_total_shape "a,b\n1").1,
   (loadDataFromCSV_total_shape "a,b\n1").2 [("a", some "1"), ("b", none)] (by decide)⟩

/-- Counterexample for C6: the statistics functions return `null` or a
silently mis-trimmed slice on insufficient data — they never raise an
`InsufficientDataError` (no such error exists in the scripts).  With a single
data point the consecutive-score analysis returns `null`; with 5 numeric
judge scores the middle-4 extraction returns `slice(1, 5)` of the sorted
five, which keeps the maximum (here `95`) instead of excluding it; with 4 it
returns only 3 values; with 3 it returns `null` rather than an error. -/
theorem insufficientData_counterexample :
    analyzeConsecutiveScores [⟨"91.5"⟩] = none ∧
      getMiddle4Scores ⟨"80", "95", "85", "90", "70", ""⟩ = some [80, 85, 90, 95] ∧
      getMiddle4Scores ⟨"80", "95", "85", "90", "", ""⟩ = some [85, 90, 95] ∧
      getMiddle4Scores ⟨"80", "95", "85", "", "", ""⟩ = none := by
  refine ⟨by decide, by decide, by decide, by decide⟩

/-- Claim C6, amended: on fewer than its minimum data points each statistics
function returns a degenerate value rather than raising: the consecutive
correlation analysis returns `null` for fewer than 2 rows; the middle-4
extraction returns `null` for fewer than 4 numeric judge scores, and for
exactly 5 numeric scores returns the mis-trimmed slice that drops only the
minimum (no error value exists in its codomain). -/
theorem insufficientData_returns_null (rows : List BestRow) (row5 row3 : ScoreRow)
    (qs : List ℚ) (hrows : rows.length < 2)
    (h3 : ((judgeScoreStrings row3).filterMap parseFloatQ).length < 4)
    (h5 : (judgeScoreStrings row5).filterMap parseFloatQ = qs) (hlen : qs.length = 5) :
    analyzeConsecutiveScores rows = none ∧
      getMiddle4Scores row3 = none ∧
      getMiddle4Scores row5 = some ((sortScoresAsc qs).drop 1) := by
  refine ⟨?_, ?_, ?_⟩
  · unfold analyzeConsecutiveScores
    simp only [List.length_map]
    rw [if_pos hrows]
  · unfold getMiddle4Scores
    rw [if_pos h3]
  · unfold getMiddle4Scores
    rw [h5]
    have hlt : ¬qs.length < 4 := by omega
    rw [if_neg hlt]
    have hdlen : ((sortScoresAsc qs).drop 1).length ≤ 4 := by
      simp [sortScoresAsc, List.length_insertionSort, hlen]
    rw [List.take_of_length_le hdlen]

/-- Witness for C6's amended claim at concrete inputs. -/
theorem insufficientData_returns_null_witness :
    analyzeConsecutiveScores ([] : List BestRow) = none ∧
      getMiddle4Scores ⟨"x", "", "", "", "", ""⟩ = none ∧
      getMiddle4Scores ⟨"1", "2", "3", "4", "5", ""⟩ =
        some ((sortScoresAsc [1, 2, 3, 4, 5]).drop 1) :=
  insufficientData_returns_null [] ⟨"1", "2", "3", "4", "5", ""⟩ ⟨"x", "", "", "", "", ""⟩
    [1, 2, 3, 4, 5] (by decide) (by decide) (by decide) rfl

/-- One streak-loop update corresponds, on the spec side, to extending the
preceding-status list by the new status. -/
theorem streakStep_streakSpec (pre : List String) (st : String) :
    streakStep (streakSpec pre) st = streakSpec (pre ++ [st]) := by
  unfold streakStep streakSpec
  rw [List.reverse_append]
  by_cases hf : st = "wipeout" ∨ st = "crash"
  · rw [if_pos hf]
    have hnc : isCompletedStatus st = false := by
      rcases hf with h | h <;> subst h <;> rfl
    have hff : isFailureStatus st = true := by
      rcases hf with h | h <;> subst h <;> rfl
    simp [List.takeWhile_cons, hnc, hff, List.countP_cons]
  · rw [if_neg hf]
    rcases not_or.mp hf with ⟨hf1, hf2⟩
    by_cases hc : st = "clean" ∨ st = "did_not_improve" ∨ st = "strategic_skip"
    · rw [if_pos hc]
      have hcc : isCompletedStatus st = true := by
        rcases hc with h | h | h <;> subst h <;> rfl
      simp [List.takeWhile_cons, hcc]
    · rw [if_neg hc]
      rcases not_or.mp hc with ⟨hc1, hcr⟩
      rcases not_or.mp hcr with ⟨hc2, hc3⟩
      have hnc : isCompletedStatus st = false := by
        simp [isCompletedStatus, hc1, hc2, hc3]
      have hnf : isFailureStatus st = false := by
        simp [isFailureStatus, hf1, hf2]
      simp [List.takeWhile_cons, hnc, hnf, List.countP_cons]

/-- The stateful streak scan of `computeRelief` equals the spec-side
per-record prefix-count emission, for any preceding-status list whose streak
value the state holds. -/
theorem reliefAux_eq_specGo (dniMap : List (String × String)) (l : List RunRow) :
    ∀ pre : List String,
      reliefAux dniMap (streakSpec pre) l = reliefGoWith streakSpec dniMap pre l := by
  induction l with
  | nil => intro pre; rfl
  | cons r rest ih =>
    intro pre
    unfold reliefAux reliefGoWith
    rw [streakStep_streakSpec]
    rw [ih (pre ++ [getRunStatus dniMap r])]

/-- Claim C3, amended: processing each round separately in ascending position
order from streak 0, a `wipeout` or `crash` record increments the streak, a
`clean`, `strategic_skip` (or `did_not_improve`) record resets it to 0, and a
`dni_unknown`/`unknown` (incomplete-unknown) record leaves it *unchanged*
(the original claim's reset on incomplete-unknown does not hold); each
`clean` record is emitted with the pre-update streak, which therefore equals
the number of `wipeout`/`crash` classifications since the most recent
completed-attempt classification (or the round's start), with
incomplete-unknown records skipped; the streak never carries across rounds. -/
theorem computeRelief_eq_spec (dniMap : List (String × String))
    (rounds : List (List RunRow)) :
    computeRelief dniMap rounds = (rounds.map (reliefSpecRound dniMap)).flatten := by
  unfold computeRelief reliefSpecRound
  congr 1
  exact List.map_congr_left fun round _ => reliefAux_eq_specGo dniMap round []

/-- Counterexample for C3: in the round `[wipeout, DNI-unresolved, clean]`
the code emits the clean record with streak 1 (the `dni_unknown` record does
not reset the streak), while the claim's semantics — incomplete-unknown
resets — predicts 0. -/
theorem computeRelief_counterexample :
    computeRelief [] [[⟨"A", "1", "1", "30"⟩, ⟨"B", "2", "1", "DNI"⟩, ⟨"C", "3", "1", "80"⟩]] =
      [(⟨"C", "3", "1", "80"⟩, 1)] ∧
      reliefClaimRound [] [⟨"A", "1", "1", "30"⟩, ⟨"B", "2", "1", "DNI"⟩, ⟨"C", "3", "1", "80"⟩] =
        [(⟨"C", "3", "1", "80"⟩, 0)] ∧
      getRunStatus [] ⟨"B", "2", "1", "DNI"⟩ = "dni_unknown" ∧ (1 : Nat) ≠ 0 :=
  ⟨by decide, by decide, by decide, by decide⟩

/-- The head of the stable ascending sort of a non-empty list is the first
element, in original order, attaining the minimal key. -/
theorem head?_insertionSort_key (x : JudgeEntry × ℚ) (l : List (JudgeEntry × ℚ)) :
    (List.insertionSort (fun a b => a.2 ≤ b.2) (x :: l)).head? =
      some (firstMinBy (fun p => p.2) x l) := by
  induction l generalizing x with
  | nil => rfl
  | cons y t ih =>
    show (List.orderedInsert (fun a b => a.2 ≤ b.2) x
        (List.insertionSort (fun a b => a.2 ≤ b.2) (y :: t))).head? = _
    obtain ⟨h, s', hs⟩ : ∃ h s',
        List.insertionSort (fun a b => a.2 ≤ b.2) (y :: t) = h :: s' := by
      cases hsort : List.insertionSort (fun a b => a.2 ≤ b.2) (y :: t) with
      | nil =>
        have hlen := List.length_insertionSort (fun a b : JudgeEntry × ℚ => a.2 ≤ b.2) (y :: t)
        rw [hsort] at hlen
        simp at hlen
      | cons h s' => exact ⟨h, s', rfl⟩
    have hh : h = firstMinBy (fun p => p.2) y t := by
      have hhd := ih y
      rw [hs] at hhd
      exact (Option.some.inj hhd)
    rw [hs]
    unfold List.orderedInsert
    by_cases hle : x.2 ≤ h.2
    · rw [if_pos hle]
      simp only [List.head?_cons, firstMinBy]
      rw [← hh, if_neg (not_lt.mpr hle)]
    · rw [if_neg hle]
      simp only [List.head?_cons, firstMinBy]
      rw [← hh, if_pos (lt_of_not_le hle)]

/-- Inserting into a sorted list: the last element is the inserted one
exactly when it strictly exceeds the old last element (equal keys keep the
old last element last, because the insertion goes before them). -/
theorem getLast?_orderedInsert_sorted (x : JudgeEntry × ℚ) (s : List (JudgeEntry × ℚ))
    (hs : List.Sorted (fun a b => a.2 ≤ b.2) s) :
    (List.orderedInsert (fun a b => a.2 ≤ b.2) x s).getLast? =
      some (s.getLast?.elim x fun m => if m.2 < x.2 then x else m) := by
  induction s with
  | nil => rfl
  | cons h t ih =>
    unfold List.orderedInsert
    by_cases hle : x.2 ≤ h.2
    · rw [if_pos hle]
      rw [List.getLast?_cons_cons]
      obtain ⟨m, hm⟩ : ∃ m, (h :: t).getLast? = some m := by
        cases hml : (h :: t).getLast? with
        | none => exact absurd (List.getLast?_eq_none_iff.mp hml) (by simp)
        | some m => exact ⟨m, rfl⟩
      have hmem : m ∈ h :: t :=
        List.mem_of_mem_getLast? (by rw [hm]; exact Option.mem_some_self m)
      have hxm : x.2 ≤ m.2 := by
        rcases List.mem_cons.mp hmem with rfl | hmt
        · exact hle
        · exact le_trans hle (List.rel_of_sorted_cons hs m hmt)
      rw [hm]
      simp only [Option.elim]
      rw [if_neg (not_lt.mpr hxm)]
    · rw [if_neg hle]
      have hne : List.orderedInsert (fun a b => a.2 ≤ b.2) x t ≠ [] := by
        intro hcontra
        have hlen := List.orderedInsert_length (fun a b : JudgeEntry × ℚ => a.2 ≤ b.2) t x
        rw [hcontra] at hlen
        simp at hlen
      obtain ⟨z, zs, hz⟩ : ∃ z zs,
          List.orderedInsert (fun a b => a.2 ≤ b.2) x t = z :: zs := by
        cases hcase : List.orderedInsert (fun a b => a.2 ≤ b.2) x t with
        | nil => exact absurd hcase hne
        | cons z zs => exact ⟨z, zs, rfl⟩
      rw [hz, List.getLast?_cons_cons, ← hz, ih hs.of_cons]
      cases t with
      | nil =>
        simp only [List.getLast?_singleton, Option.elim]
        rw [if_pos (lt_of_not_le hle)]
        rfl
      | cons y tt =>
        rw [List.getLast?_cons_cons]

/-- The last element of the stable ascending sort of a non-empty list is the
last element, in original order, attaining the maximal key. -/
theorem getLast?_insertionSort_key (x : JudgeEntry × ℚ) (l : List (JudgeEntry × ℚ)) :
    (List.insertionSort (fun a b => a.2 ≤ b.2) (x :: l)).getLast? =
      some (lastMaxBy (fun p => p.2) x l) := by
  induction l generalizing x with
  | nil => rfl
  | cons y t ih =>
    show (List.orderedInsert (fun a b => a.2 ≤ b.2) x
        (List.insertionSort (fun a b => a.2 ≤ b.2) (y :: t))).getLast? = _
    rw [getLast?_orderedInsert_sorted x _
      (List.sorted_insertionSort (fun a b => a.2 ≤ b.2) (y :: t))]
    rw [ih y]
    simp only [Option.elim, lastMaxBy]
    by_cases hxm : x.2 ≤ (lastMaxBy (fun p => p.2) y t).2
    · rw [if_pos hxm, if_neg (not_lt.mpr hxm)]
    · rw [if_neg hxm, if_pos (lt_of_not_le hxm)]

/-- Past index 0, the exclusion loop tags only the final element (`high`) and
sends everything before it to `middle4`. -/
theorem exclLoop_tail (t : List (JudgeEntry × ℚ)) :
    ∀ i n : Nat, 1 ≤ i → i + t.length = n → t ≠ [] →
      exclLoop n i t = (t.getLast?.elim [] fun m => [(m, "high")], t.dropLast) := by
  induction t with
  | nil => intro i n _ _ hne; exact absurd rfl hne
  | cons x tt ih =>
    intro i n h1 hn _
    unfold exclLoop
    cases tt with
    | nil =>
      have hi0 : ¬i = 0 := by omega
      have hin : i = n - 1 := by simp at hn; omega
      rw [if_neg hi0, if_pos hin]
      rfl
    | cons y ttt =>
      have hi0 : ¬i = 0 := by omega
      have hin : ¬i = n - 1 := by simp at hn; omega
      rw [if_neg hi0, if_neg hin]
      rw [ih (i + 1) n (by omega) (by simp at hn ⊢; omega) (by simp)]
      rw [List.getLast?_cons_cons, List.dropLast_cons₂]

/-- The exclusion loop over a sorted list of at least two entries excludes
exactly the first entry as `low` and the last as `high`, everything else
being `middle4`. -/
theorem exclLoop_cons (h : JudgeEntry × ℚ) (t : List (JudgeEntry × ℚ)) (hne : t ≠ []) :
    exclLoop (h :: t).length 0 (h :: t) =
      ((h, "low") :: (t.getLast?.elim [] fun m => [(m, "high")]), t.dropLast) := by
  unfold exclLoop
  rw [if_pos rfl]
  rw [exclLoop_tail t 1 (h :: t).length (le_refl 1) (by simp; omega) hne]

/-- Claim C2, amended: with at least 4 valid judge scores, the exclusion
procedure discards exactly one instance of the lowest value and one instance
of the highest value; the low instance discarded is the *first* encountered
at the minimal score in original array order, but the high instance
discarded is the *last* encountered at the maximal score in original array
order (the stable sort keeps tied maxima in array order and the final sorted
element is excluded); the remaining middle entries number exactly two fewer
than the valid scores. -/
theorem findExcludedJudges_extremes (js : List JudgeEntry) (v0 : JudgeEntry × ℚ)
    (vr : List (JudgeEntry × ℚ)) (hv : validJudgeScores js = v0 :: vr)
    (h4 : 4 ≤ (v0 :: vr).length) :
    (findExcludedJudges js).1 =
      [(firstMinBy (fun p => p.2) v0 vr, "low"),
       (lastMaxBy (fun p => p.2) v0 vr, "high")] ∧
      (findExcludedJudges js).2.length + 2 = (v0 :: vr).length := by
  have hlt : ¬(validJudgeScores js).length < 4 := by rw [hv]; omega
  have hmain : findExcludedJudges js =
      exclLoop (sortJudgesByScore (validJudgeScores js)).length 0
        (sortJudgesByScore (validJudgeScores js)) := by
    unfold findExcludedJudges
    rw [if_neg hlt]
  have hslen : (sortJudgesByScore (v0 :: vr)).length = vr.length + 1 := by
    unfold sortJudgesByScore
    rw [List.length_insertionSort]
    rfl
  obtain ⟨sh, st, hshape⟩ : ∃ sh st, sortJudgesByScore (v0 :: vr) = sh :: st := by
    cases hcase : sortJudgesByScore (v0 :: vr) with
    | nil => rw [hcase] at hslen; simp at hslen
    | cons sh st => exact ⟨sh, st, rfl⟩
  have hstlen : st.length = vr.length := by
    rw [hshape] at hslen
    simpa using hslen
  have hvr3 : 3 ≤ vr.length := by simpa using h4
  have hstne : st ≠ [] := by
    intro hcontra
    rw [hcontra] at hstlen
    simp at hstlen
    omega
  have hhead : sh = firstMinBy (fun p => p.2) v0 vr := by
    have hhd := head?_insertionSort_key v0 vr
    rw [show List.insertionSort (fun a b : JudgeEntry × ℚ => a.2 ≤ b.2) (v0 :: vr) =
      sortJudgesByScore (v0 :: vr) from rfl, hshape] at hhd
    exact Option.some.inj hhd
  have hlast : st.getLast? = some (lastMaxBy (fun p => p.2) v0 vr) := by
    have hlst := getLast?_insertionSort_key v0 vr
    rw [show List.insertionSort (fun a b : JudgeEntry × ℚ => a.2 ≤ b.2) (v0 :: vr) =
      sortJudgesByScore (v0 :: vr) from rfl, hshape] at hlst
    cases st with
    | nil => exact absurd rfl hstne
    | cons z zs => rw [List.getLast?_cons_cons] at hlst; exact hlst
  rw [hmain, hv, hshape, exclLoop_cons sh st hstne, hhead, hlast]
  constructor
  · rfl
  · have hdl : st.dropLast.length = st.length - 1 := by simp
    simp only [hdl, hstlen]
    have hvr : 3 ≤ vr.length := by simpa using h4
    simp only [List.length_cons]
    omega

/-- Counterexample for C2: on scores `[50, 45, 50, 46, 49, 50]` (judges 1–6
in array order) the high exclusion discards judge 6 — the *last* instance of
the extreme value 50 in array order — whereas the first judge encountered at
that extreme value is judge 1, so the claimed first-encountered tie-break is
violated at the high end. -/
theorem findExcludedJudges_counterexample :
    (findExcludedJudges
        [⟨1, "", "50"⟩, ⟨2, "", "45"⟩, ⟨3, "", "50"⟩,
         ⟨4, "", "46"⟩, ⟨5, "", "49"⟩, ⟨6, "", "50"⟩]).1 =
      [((⟨2, "", "45"⟩, 45), "low"), ((⟨6, "", "50"⟩, 50), "high")] ∧
      (validJudgeScores
        ([⟨1, "", "50"⟩, ⟨2, "", "45"⟩, ⟨3, "", "50"⟩,
          ⟨4, "", "46"⟩, ⟨5, "", "49"⟩, ⟨6, "", "50"⟩] : List JudgeEntry)).find?
          (fun p => p.2 == (50 : ℚ)) = some (⟨1, "", "50"⟩, 50) ∧
      (⟨6, "", "50"⟩ : JudgeEntry) ≠ ⟨1, "", "50"⟩ :=
  ⟨by decide, by decide, by decide⟩

/-- Witness for C2's amended claim at the tie-break example input. -/
theorem findExcludedJudges_extremes_witness :
    (findExcludedJudges
        [⟨1, "", "50"⟩, ⟨2, "", "45"⟩, ⟨3, "", "50"⟩,
         ⟨4, "", "46"⟩, ⟨5, "", "49"⟩, ⟨6, "", "50"⟩]).1 =
      [(firstMinBy (fun p => p.2) (⟨1, "", "50"⟩, 50)
          [(⟨2, "", "45"⟩, 45), (⟨3, "", "50"⟩, 50), (⟨4, "", "46"⟩, 46),
           (⟨5, "", "49"⟩, 49), (⟨6, "", "50"⟩, 50)], "low"),
       (lastMaxBy (fun p => p.2) (⟨1, "", "50"⟩, 50)
          [(⟨2, "", "45"⟩, 45), (⟨3, "", "50"⟩, 50), (⟨4, "", "46"⟩, 46),
           (⟨5, "", "49"⟩, 49), (⟨6, "", "50"⟩, 50)], "high")] ∧
      (findExcludedJudges
        [⟨1, "", "50"⟩, ⟨2, "", "45"⟩, ⟨3, "", "50"⟩,
         ⟨4, "", "46"⟩, ⟨5, "", "49"⟩, ⟨6, "", "50"⟩]).2.length + 2 =
        ([(⟨1, "", "50"⟩, (50 : ℚ)), (⟨2, "", "45"⟩, 45), (⟨3, "", "50"⟩, 50),
          (⟨4, "", "46"⟩, 46), (⟨5, "", "49"⟩, 49), (⟨6, "", "50"⟩, 50)] :
            List (JudgeEntry × ℚ)).length :=
  findExcludedJudges_extremes
    [⟨1, "", "50"⟩, ⟨2, "", "45"⟩, ⟨3, "", "50"⟩,
     ⟨4, "", "46"⟩, ⟨5, "", "49"⟩, ⟨6, "", "50"⟩]
    (⟨1, "", "50"⟩, 50)
    [(⟨2, "", "45"⟩, 45), (⟨3, "", "50"⟩, 50), (⟨4, "", "46"⟩, 46),
     (⟨5, "", "49"⟩, 49), (⟨6, "", "50"⟩, 50)]
    (by decide) (by decide)

/-- A well-formed memo cache (every entry holds the score of its key) makes
`scoreTrick` return exactly the pure score of the code — `null` for empty or
whitespace-only codes — and keeps the cache well-formed. -/
theorem scoreTrick_value (s : String) (c : List (String × TrickScore))
    (hc : ∀ p ∈ c, p.2 = scoreTrickCore p.1) :
    (scoreTrick c s).1 = (if trimJS s = "" then none else some (scoreTrickCore s)) ∧
      ∀ p ∈ (scoreTrick c s).2, p.2 = scoreTrickCore p.1 := by
  by_cases hs : trimJS s = ""
  · have he : scoreTrick c s = (none, c) := by
      unfold scoreTrick
      rw [if_pos hs]
    rw [he, if_pos hs]
    exact ⟨rfl, hc⟩
  · unfold scoreTrick
    rw [if_neg hs, if_neg hs]
    cases hf : (c.find? fun p => p.1 = s).map (fun p => p.2) with
    | some r =>
      obtain ⟨q, hq, hqr⟩ := Option.map_eq_some'.mp hf
      have hmem : q ∈ c := List.mem_of_find?_eq_some hq
      have hkey : q.1 = s := by
        have := List.find?_some hq
        simpa using this
      have hr : r = scoreTrickCore s := by
        rw [← hqr, hc q hmem, hkey]
      exact ⟨by rw [show ((match some r with
        | some r => (some r, c)
        | none => (some (scoreTrickCore s), (s, scoreTrickCore s) :: c)) :
          Option TrickScore × List (String × TrickScore)).1 = some r from rfl, hr], hc⟩
    | none =>
      refine ⟨rfl, ?_⟩
      intro p hp
      rcases List.mem_cons.mp hp with rfl | hmem
      · rfl
      · exact hc p hmem

/-- Claim C8: the difficulty scorer is deterministic.  With any well-formed
memo cache, an invocation returns the pure function `scoreTrickCore` of the
code string (identical rotation, cork, spin, grab, bonus and total fields on
identical codes), a second invocation with the same string — through the
cache updated by the first — returns the identical output, and every empty
or whitespace-only code yields `null` from both the scorer and the
exploratory `parseTrick`. -/
theorem scoreTrick_deterministic (s : String) (cache : List (String × TrickScore))
    (hwf : ∀ p ∈ cache, p.2 = scoreTrickCore p.1) :
    (scoreTrick cache s).1 = (if trimJS s = "" then none else some (scoreTrickCore s)) ∧
      (scoreTrick (scoreTrick cache s).2 s).1 = (scoreTrick cache s).1 ∧
      (trimJS s = "" → parseTrick s = none) := by
  have h1 := scoreTrick_value s cache hwf
  have h2 := scoreTrick_value s (scoreTrick cache s).2 h1.2
  refine ⟨h1.1, h2.1.trans h1.1.symm, fun hs => ?_⟩
  unfold parseTrick
  rw [if_pos hs]

/-- Witness for C8 at the trick code `f-TC-14-Tdr` and the empty cache. -/
theorem scoreTrick_deterministic_witness :
    (scoreTrick [] "f-TC-14-Tdr").1 =
        (if trimJS "f-TC-14-Tdr" = "" then none else some (scoreTrickCore "f-TC-14-Tdr")) ∧
      (scoreTrick (scoreTrick [] "f-TC-14-Tdr").2 "f-TC-14-Tdr").1 =
        (scoreTrick [] "f-TC-14-Tdr").1 ∧
      (trimJS "f-TC-14-Tdr" = "" → parseTrick "f-TC-14-Tdr" = none) :=
  scoreTrick_deterministic "f-TC-14-Tdr" [] (by simp)
